import Mathlib

/-!
# Verification of the x402-elysia payment middleware

Shallow embedding of `paymentMiddlewareFromHTTPServer` (src/index.ts) and
`ElysiaAdapter` (src/adapter.ts) from the `@codingstark/x402-elysia` package,
together with proofs of the request-lifecycle properties of the payment
state machine: header selection, the verification stage's error-response
construction, the settlement stage's short-circuit, serialization, settle
invocation and outcome handling, and the facilitator-initializer state
across a sequence of requests.

Opaque upstream payloads (`PaymentPayload`, `PaymentRequirements`,
`Record<string, unknown>` extension maps) are modelled as `String`s: the
middleware only carries them through, never inspects them.  Byte buffers
(`Buffer`) are modelled as `List Char`: the middleware never inspects buffer
contents either, only chooses which source they are produced from.
-/

namespace X402Elysia

/-- Header lists: ordered key/value pairs, as produced by iterating a JS
`Headers` object or `Object.entries` of a record. -/
abbrev HeaderList := List (String × String)

/-- ASCII lower-casing of one character, as header-name normalization
performs it (HTTP header names are ASCII tokens). -/
def lowerChar (c : Char) : Char :=
  if 65 ≤ c.toNat ∧ c.toNat ≤ 90 then Char.ofNat (c.toNat + 32) else c

/-- ASCII lower-casing of a header name. -/
def lowerStr (s : String) : String := String.mk (s.data.map lowerChar)

/-- Keyed update on an ordered association list, with keys normalized by
`norm`: replace the first entry whose stored key equals the normalized key
(keeping its position), otherwise append at the end.  This is the common
shape of the JS `Headers.set` (with lower-casing) and plain object property
assignment (with no normalization); both keep one entry per key and preserve
insertion order. -/
def assocSet (norm : String → String) : HeaderList → String → String → HeaderList
  | [], k, v => [(norm k, v)]
  | p :: rest, k, v =>
      if p.1 = norm k then (norm k, v) :: rest
      else p :: assocSet norm rest k v

/-- First-match lookup against the `norm`-normalized key. -/
def assocGet (norm : String → String) (hs : HeaderList) (k : String) : Option String :=
  (hs.find? (fun p => p.1 == norm k)).map (·.2)

/-- Fold a source record onto `hs` entry by entry via `assocSet`. -/
def assocSetAll (norm : String → String) (hs : HeaderList) (src : HeaderList) : HeaderList :=
  src.foldl (fun acc kv => assocSet norm acc kv.1 kv.2) hs

/-- `Headers.prototype.set`: header names are normalized to lower case; an
existing entry for the name is replaced in place, otherwise appended. -/
def headersSet (hs : HeaderList) (k v : String) : HeaderList :=
  assocSet lowerStr hs k v

/-- Copy every entry of `src` onto `hs` via `Headers.set`, in entry order —
the `for (const [key, value] of Object.entries(response.headers))` loop. -/
def headersCopyAll (hs : HeaderList) (src : HeaderList) : HeaderList :=
  assocSetAll lowerStr hs src

/-- Case-insensitive header lookup (`Headers.get`). -/
def headersGet (hs : HeaderList) (k : String) : Option String :=
  assocGet lowerStr hs k

/-- Plain JS object property assignment `obj[key] = value` on a record
modelled as an ordered association list: case-SENSITIVE keys, replace in
place or append.  Used for `ctx.set.headers[key] = value`. -/
def recordSet (hs : HeaderList) (k v : String) : HeaderList :=
  assocSet id hs k v

/-- Assign every settlement header onto `ctx.set.headers`, in entry order —
the `for (const [key, value] of Object.entries(settleResult.headers))` loop. -/
def recordSetAll (hs : HeaderList) (src : HeaderList) : HeaderList :=
  assocSetAll id hs src

/-- Case-sensitive first-match lookup on a plain-object record. -/
def recordGet (hs : HeaderList) (k : String) : Option String :=
  assocGet id hs k

/--
`request.headers.get(name) ?? undefined` — the Web `Headers` API is
case-insensitive, so the incoming raw request headers are matched by
lower-cased name (`ElysiaAdapter.getHeader`).
-/
def getHeader (headers : HeaderList) (name : String) : Option String :=
  (headers.find? (fun p => lowerStr p.1 == lowerStr name)).map (·.2)

/-- JS `a || b` on `string | undefined` values (`undefined` = `none`):
a defined non-empty string is truthy and is returned; `undefined` and the
empty string are falsy and fall through to `b`. -/
def jsOrElse (a b : Option String) : Option String :=
  match a with
  | some s => if s = "" then b else some s
  | none => b

/--
The Header Selector of `onBeforeHandle`:
`adapter.getHeader("payment-signature") || adapter.getHeader("x-payment")`.
-/
def selectPaymentHeader (headers : HeaderList) : Option String :=
  jsOrElse (getHeader headers "payment-signature") (getHeader headers "x-payment")

/-- A header value regarded as a payment credential: an empty string is not a
credential, matching the falsiness discipline the middleware applies. -/
def asCredential : Option String → Option String
  | some s => if s = "" then none else some s
  | none => none

/-- `HTTPRequestContext` as built in `onBeforeHandle` (the opaque `adapter`
back-reference is elided). -/
structure HTTPRequestContext where
  path : String
  method : String
  paymentHeader : Option String
  deriving Repr, DecidableEq

/-- The per-request verified payment carried from `onBeforeHandle` to
`onAfterHandle` (`VerifiedPaymentContext`).  Upstream payloads are opaque. -/
structure VerifiedPaymentContext where
  paymentPayload : String
  paymentRequirements : String
  declaredExtensions : Option String
  context : HTTPRequestContext
  deriving Repr, DecidableEq

/-- A Web-standard `Response` object as far as the middleware observes it:
status, underlying body stream content, headers, and whether the body
stream has been consumed (`bodyUsed`). -/
structure WebResponse where
  status : Nat
  bodyBytes : List Char
  headers : HeaderList
  bodyUsed : Bool
  deriving Repr, DecidableEq

/-- `Response.prototype.clone()`: an independent copy with a fresh,
unconsumed body stream. -/
def WebResponse.clone (r : WebResponse) : WebResponse :=
  { r with bodyUsed := false }

/-- `await r.arrayBuffer()`: yields the stream content and marks the stream
consumed. -/
def WebResponse.arrayBuffer (r : WebResponse) : List Char × WebResponse :=
  (r.bodyBytes, { r with bodyUsed := true })

/--
The shapes of `ctx.response` that `onAfterHandle` distinguishes:
* `response` — `r instanceof Response`;
* `str` — `typeof r === "string"`;
* `obj` — any other non-null object; `code` is the numeric `code` field when
  one is present (`"code" in r && typeof r.code === "number"`, the wrapper
  produced by Elysia's `error()` / `status()` helpers), and `json` is the
  value's `JSON.stringify` serialization;
* `nullV` / `undefV` / `numV` / `boolV` — null, undefined, and the non-string
  primitives, which all fall to the final `else` branch.
-/
inductive HandlerResult where
  | response (r : WebResponse)
  | str (s : String)
  | obj (code : Option Int) (json : String)
  | nullV
  | undefV
  | numV (n : Int)
  | boolV (b : Bool)
  deriving Repr, DecidableEq

/--
The two error-shape checks at the top of `onAfterHandle`:
`r instanceof Response && r.status >= 400`, and
`"code" in r && typeof r.code === "number" && r.code >= 400`.
`true` means settlement is skipped and the response passes through.
-/
def handlerSignalsError : HandlerResult → Bool
  | .response r => r.status ≥ 400
  | .obj (some c) _ => c ≥ 400
  | _ => false

/--
The response-body serialization of `onAfterHandle`, returning the `Buffer`
content together with the handler result as it continues downstream:
* `Response` — `Buffer.from(await r.clone().arrayBuffer())`: the clone is
  consumed, the original is forwarded untouched;
* string — `Buffer.from(r)`: the raw bytes of the string;
* non-null object — `Buffer.from(JSON.stringify(r))`;
* anything else — `Buffer.alloc(0)`.
-/
def serializeResponseBody (r : HandlerResult) : List Char × HandlerResult :=
  match r with
  | .response wr => ((wr.clone.arrayBuffer).1, .response wr)
  | .str s => (s.data, .str s)
  | .obj c j => (j.data, .obj c j)
  | other => ([], other)

/-- Hex digit used by `JSON.stringify`'s `\u00XX` escapes (lower case). -/
def hexDigit (n : Nat) : Char :=
  if n < 10 then Char.ofNat (48 + n) else Char.ofNat (87 + n)

/-- `JSON.stringify` escaping of a single character inside a string literal. -/
def escapeChar (c : Char) : List Char :=
  if c = '"' then ['\\', '"']
  else if c = '\\' then ['\\', '\\']
  else if c = Char.ofNat 8 then ['\\', 'b']
  else if c = Char.ofNat 9 then ['\\', 't']
  else if c = Char.ofNat 10 then ['\\', 'n']
  else if c = Char.ofNat 12 then ['\\', 'f']
  else if c = Char.ofNat 13 then ['\\', 'r']
  else if c.toNat < 32 then
    ['\\', 'u', '0', '0', hexDigit (c.toNat / 16), hexDigit (c.toNat % 16)]
  else [c]

/-- `JSON.stringify` of a string value. -/
def jsonQuote (s : String) : String :=
  String.mk ('"' :: (s.data.map escapeChar).flatten ++ ['"'])

/-- `JSON.stringify({ error: "Settlement failed", details: reason })`. -/
def settlementFailedJson (reason : String) : String :=
  "\x7b\"error\":\"Settlement failed\",\"details\":" ++ jsonQuote reason ++ "\x7d"

/--
Outcome of `await settle(...)` as observed by the call site:
* `ok headers` — `settleResult.success` true, with the settlement headers;
* `fail errorReason` — `settleResult.success` false;
* `thrown msg` — the call threw; `msg = some m` when the thrown value was an
  `Error` with message `m`, `none` for a non-`Error` throw.
-/
inductive SettleOutcome where
  | ok (headers : HeaderList)
  | fail (errorReason : String)
  | thrown (msg : Option String)
  deriving Repr, DecidableEq

/-- `err instanceof Error ? err.message : "Unknown error"`. -/
def thrownMessage : Option String → String
  | some m => m
  | none => "Unknown error"

/-- The failure reason a settle outcome produces at the call site, if any:
`errorReason` for an explicit failure result, the mapped exception message
for a thrown error, `none` for success. -/
def settleFailReason : SettleOutcome → Option String
  | .ok _ => none
  | .fail e => some e
  | .thrown m => some (thrownMessage m)

/-- The arguments of one `settle(...)` invocation: the verified payload,
requirements and declared extensions, plus the transport context
`{ request, responseBody }`. -/
structure SettleCall where
  payload : String
  requirements : String
  extensions : Option String
  transportRequest : HTTPRequestContext
  responseBody : List Char
  deriving Repr, DecidableEq

/-- Build the settle invocation `onAfterHandle` makes for a verified payment
context and a serialized response body. -/
def mkSettleCall (pc : VerifiedPaymentContext) (body : List Char) : SettleCall :=
  { payload := pc.paymentPayload
    requirements := pc.paymentRequirements
    extensions := pc.declaredExtensions
    transportRequest := pc.context
    responseBody := body }

/--
What `onAfterHandle` hands back to Elysia:
* `pass r setHeaders` — the hook returned `undefined`: the handler's response
  `r` goes out unchanged, with `ctx.set.headers` equal to `setHeaders`;
* `replaced status body headers` — the hook returned a fresh `Response`,
  which supersedes the handler's response entirely.
-/
inductive AfterResult where
  | pass (r : HandlerResult) (setHeaders : HeaderList)
  | replaced (status : Nat) (body : String) (headers : HeaderList)
  deriving Repr, DecidableEq

/--
The `onAfterHandle` hook, translated from src/index.ts lines 275–388.
Inputs: the per-request `ctx.x402PaymentContext.value`, the handler's
response `ctx.response`, the current `ctx.set.headers`, and the external
`settle` operation.  Output: the result handed to Elysia, paired with the
list of settle invocations made (for counting calls).
-/
def onAfterHandle (paymentCtx : Option VerifiedPaymentContext)
    (r : HandlerResult) (setHeaders : HeaderList)
    (settle : SettleCall → SettleOutcome) :
    AfterResult × List SettleCall :=
  match paymentCtx with
  | none => (.pass r setHeaders, [])
  | some pc =>
    if handlerSignalsError r then
      (.pass r setHeaders, [])
    else
      let responseBody := (serializeResponseBody r).1
      let r2 := (serializeResponseBody r).2
      let call := mkSettleCall pc responseBody
      match settle call with
      | .ok hdrs =>
          (.pass r2 (recordSetAll setHeaders hdrs), [call])
      | .fail errorReason =>
          (.replaced 402 (settlementFailedJson errorReason)
            [("content-type", "application/json")], [call])
      | .thrown msg =>
          (.replaced 402 (settlementFailedJson (thrownMessage msg))
            [("content-type", "application/json")], [call])

/-- The `payment-error` response shape delivered by
`httpServer.processHTTPRequest`:  `status`, a finite header record, the
HTML flag, and the body — the HTML string when `isHtml`, otherwise the
`JSON.stringify` serialization of the JSON body value (`none` = the body
field was `undefined`). -/
structure CoreErrorResponse where
  status : Nat
  headers : HeaderList
  isHtml : Bool
  body : Option String
  deriving Repr, DecidableEq

/-- A finished HTTP response built by the middleware. -/
structure BuiltResponse where
  status : Nat
  body : String
  headers : HeaderList
  deriving Repr, DecidableEq

/--
The `payment-error` branch of `onBeforeHandle` (src/index.ts lines 230–255):
copy every header of the outcome onto a fresh `Headers`, then set
`content-type` from the HTML flag, and emit the body — the raw HTML string,
or `JSON.stringify(response.body ?? {})`.
-/
def buildPaymentErrorResponse (resp : CoreErrorResponse) : BuiltResponse :=
  let hs := headersCopyAll [] resp.headers
  if resp.isHtml then
    { status := resp.status
      body := resp.body.getD ""
      headers := headersSet hs "content-type" "text/html; charset=utf-8" }
  else
    { status := resp.status
      body := resp.body.getD "\x7b\x7d"
      headers := headersSet hs "content-type" "application/json" }

/-- Result of `httpServer.processHTTPRequest` — the three-way
`VerificationOutcome`. -/
inductive ProcessResult where
  | noPaymentRequired
  | paymentError (resp : CoreErrorResponse)
  | paymentVerified (payload requirements : String) (declaredExtensions : Option String)
  deriving Repr, DecidableEq

/-- The middleware's closure state shared across requests: the facilitator
`initPromise` and the `bazaarPromise` references (`some ()` = the reference
is still held, `none` = cleared). -/
structure MiddlewareState where
  initPromise : Option Unit
  bazaarPromise : Option Unit
  deriving Repr, DecidableEq

/-- What `onBeforeHandle` hands back to Elysia: pass through to the handler
(with the payment context slot possibly populated), or short-circuit with a
built response. -/
inductive BeforeAction where
  | passThrough (paymentCtx : Option VerifiedPaymentContext)
  | respond (resp : BuiltResponse)
  deriving Repr, DecidableEq

/-- Observable effects of one `onBeforeHandle` run: whether the facilitator
init promise was awaited, and the `processHTTPRequest` (verify) invocations
made. -/
structure BeforeEffects where
  awaitedInit : Bool
  verifyCalls : List HTTPRequestContext
  deriving Repr, DecidableEq

/-- One incoming request as the middleware observes it before any processing. -/
structure RawRequest where
  path : String
  method : String
  headers : HeaderList
  deriving Repr, DecidableEq

/-- The `HTTPRequestContext` built at the top of `onBeforeHandle`: path and
method from the adapter, `paymentHeader` from the Header Selector. -/
def mkContext (req : RawRequest) : HTTPRequestContext :=
  { path := req.path, method := req.method
    paymentHeader := selectPaymentHeader req.headers }

/--
The `onBeforeHandle` hook, translated from src/index.ts lines 195–270.
`requiresPayment` is the synchronous route-classifier lookup and `verify`
the external `processHTTPRequest`.  Returns the action for Elysia, the
updated closure state, and the observable effects.
-/
def onBeforeHandle (requiresPayment : HTTPRequestContext → Bool)
    (verify : HTTPRequestContext → ProcessResult)
    (st : MiddlewareState) (req : RawRequest) :
    BeforeAction × MiddlewareState × BeforeEffects :=
  let context := mkContext req
  if ¬ requiresPayment context then
    (.passThrough none, st, { awaitedInit := false, verifyCalls := [] })
  else
    let awaited := st.initPromise.isSome
    let st' : MiddlewareState := { initPromise := none, bazaarPromise := none }
    let effects : BeforeEffects := { awaitedInit := awaited, verifyCalls := [context] }
    match verify context with
    | .noPaymentRequired => (.passThrough none, st', effects)
    | .paymentError resp => (.respond (buildPaymentErrorResponse resp), st', effects)
    | .paymentVerified payload requirements exts =>
        (.passThrough (some { paymentPayload := payload
                              paymentRequirements := requirements
                              declaredExtensions := exts
                              context := context }), st', effects)

/-- Run `onBeforeHandle` over a sequence of requests, threading the closure
state, and collect each request's effects. -/
def runRequests (requiresPayment : HTTPRequestContext → Bool)
    (verify : HTTPRequestContext → ProcessResult)
    (st : MiddlewareState) :
    List RawRequest → MiddlewareState × List BeforeEffects
  | [] => (st, [])
  | req :: rest =>
      let step := onBeforeHandle requiresPayment verify st req
      let next := runRequests requiresPayment verify step.2.1 rest
      (next.1, step.2.2 :: next.2)

/--
Modelled from the spec: Elysia merges the `ctx.set.headers` record onto the
outgoing response's headers; a set header replaces a handler header with a
colliding name, other handler headers are kept (§4.5 Step 4 "additive, never
replacing headers the handler set, except where keys collide — settlement
headers win").  The merge itself lives in the Elysia framework, not in this
repository's sources.
-/
def finalHeaders (handlerHeaders setHeaders : HeaderList) : HeaderList :=
  recordSetAll handlerHeaders setHeaders

/-! ## Association-list lemmas -/

theorem assocSet_cons_pos (norm : String → String) (p : String × String)
    (rest : HeaderList) (k v : String) (hp : p.1 = norm k) :
    assocSet norm (p :: rest) k v = (norm k, v) :: rest := by
  simp [assocSet, hp]

theorem assocSet_cons_neg (norm : String → String) (p : String × String)
    (rest : HeaderList) (k v : String) (hp : ¬ p.1 = norm k) :
    assocSet norm (p :: rest) k v = p :: assocSet norm rest k v := by
  simp [assocSet, hp]

theorem assocGet_cons_pos (norm : String → String) (p : String × String)
    (rest : HeaderList) (k : String) (hp : p.1 = norm k) :
    assocGet norm (p :: rest) k = some p.2 := by
  unfold assocGet
  rw [List.find?_cons_of_pos _ (by simp [hp])]
  rfl

theorem assocGet_cons_neg (norm : String → String) (p : String × String)
    (rest : HeaderList) (k : String) (hp : ¬ p.1 = norm k) :
    assocGet norm (p :: rest) k = assocGet norm rest k := by
  unfold assocGet
  rw [List.find?_cons_of_neg _ (by simp [hp])]

theorem assocGet_set_self (norm : String → String) (hs : HeaderList) (k v : String) :
    assocGet norm (assocSet norm hs k v) k = some v := by
  induction hs with
  | nil =>
      show assocGet norm [(norm k, v)] k = some v
      rw [assocGet_cons_pos norm (norm k, v) [] k rfl]
  | cons p rest ih =>
      by_cases hp : p.1 = norm k
      · rw [assocSet_cons_pos norm p rest k v hp,
          assocGet_cons_pos norm (norm k, v) rest k rfl]
      · rw [assocSet_cons_neg norm p rest k v hp,
          assocGet_cons_neg norm p _ k hp]
        exact ih

theorem assocGet_set_other (norm : String → String) (hs : HeaderList) (k v k' : String)
    (h : norm k' ≠ norm k) :
    assocGet norm (assocSet norm hs k v) k' = assocGet norm hs k' := by
  induction hs with
  | nil =>
      show assocGet norm [(norm k, v)] k' = assocGet norm [] k'
      rw [assocGet_cons_neg norm (norm k, v) [] k' (Ne.symm h)]
  | cons p rest ih =>
      by_cases hp : p.1 = norm k
      · rw [assocSet_cons_pos norm p rest k v hp,
          assocGet_cons_neg norm (norm k, v) rest k' (Ne.symm h),
          assocGet_cons_neg norm p rest k' (by rw [hp]; exact Ne.symm h)]
      · rw [assocSet_cons_neg norm p rest k v hp]
        by_cases hq : p.1 = norm k'
        · rw [assocGet_cons_pos norm p _ k' hq, assocGet_cons_pos norm p rest k' hq]
        · rw [assocGet_cons_neg norm p _ k' hq, assocGet_cons_neg norm p rest k' hq]
          exact ih

theorem assocGet_setAll_not_mem (norm : String → String) (src hs : HeaderList) (k : String)
    (h : norm k ∉ src.map (fun p => norm p.1)) :
    assocGet norm (assocSetAll norm hs src) k = assocGet norm hs k := by
  induction src generalizing hs with
  | nil => rfl
  | cons q rest ih =>
      simp only [List.map_cons, List.mem_cons, not_or] at h
      have hstep : assocSetAll norm hs (q :: rest)
          = assocSetAll norm (assocSet norm hs q.1 q.2) rest := rfl
      rw [hstep, ih (assocSet norm hs q.1 q.2) h.2]
      exact assocGet_set_other norm hs q.1 q.2 k h.1

theorem assocGet_setAll_mem (norm : String → String) (src hs : HeaderList) (k v : String)
    (hnd : (src.map (fun p => norm p.1)).Nodup)
    (hmem : (k, v) ∈ src) :
    assocGet norm (assocSetAll norm hs src) k = some v := by
  induction src generalizing hs with
  | nil => cases hmem
  | cons q rest ih =>
      simp only [List.map_cons, List.nodup_cons] at hnd
      have hstep : assocSetAll norm hs (q :: rest)
          = assocSetAll norm (assocSet norm hs q.1 q.2) rest := rfl
      rcases List.mem_cons.mp hmem with hq | hq
      · cases hq
        rw [hstep, assocGet_setAll_not_mem norm rest (assocSet norm hs k v) k hnd.1]
        exact assocGet_set_self norm hs k v
      · rw [hstep]
        exact ih (assocSet norm hs q.1 q.2) hnd.2 hq

theorem mem_keys_assocSet (norm : String → String) (hs : HeaderList) (k v x : String)
    (hx : x ∈ (assocSet norm hs k v).map Prod.fst) :
    x ∈ hs.map Prod.fst ∨ x = norm k := by
  induction hs with
  | nil =>
      rw [show assocSet norm [] k v = [(norm k, v)] from rfl] at hx
      exact Or.inr (by simpa using hx)
  | cons p rest ih =>
      by_cases hp : p.1 = norm k
      · rw [assocSet_cons_pos norm p rest k v hp, List.map_cons] at hx
        rcases List.mem_cons.mp hx with h | h
        · exact Or.inr h
        · exact Or.inl (by rw [List.map_cons]; exact List.mem_cons_of_mem _ h)
      · rw [assocSet_cons_neg norm p rest k v hp, List.map_cons] at hx
        rcases List.mem_cons.mp hx with h | h
        · exact Or.inl (by rw [List.map_cons, h]; exact List.mem_cons_self _ _)
        · rcases ih h with h' | h'
          · exact Or.inl (by rw [List.map_cons]; exact List.mem_cons_of_mem _ h')
          · exact Or.inr h'

theorem keys_nodup_assocSet (norm : String → String) (hs : HeaderList) (k v : String)
    (h : (hs.map Prod.fst).Nodup) :
    ((assocSet norm hs k v).map Prod.fst).Nodup := by
  induction hs with
  | nil => simp [assocSet]
  | cons p rest ih =>
      rw [List.map_cons, List.nodup_cons] at h
      by_cases hp : p.1 = norm k
      · rw [assocSet_cons_pos norm p rest k v hp, List.map_cons, List.nodup_cons]
        exact ⟨hp ▸ h.1, h.2⟩
      · rw [assocSet_cons_neg norm p rest k v hp, List.map_cons, List.nodup_cons]
        refine ⟨fun hmem => ?_, ih h.2⟩
        rcases mem_keys_assocSet norm rest k v p.1 hmem with h' | h'
        · exact h.1 h'
        · exact hp h'

theorem keys_nodup_assocSetAll (norm : String → String) (src hs : HeaderList)
    (h : (hs.map Prod.fst).Nodup) :
    ((assocSetAll norm hs src).map Prod.fst).Nodup := by
  induction src generalizing hs with
  | nil => exact h
  | cons q rest ih => exact ih (assocSet norm hs q.1 q.2) (keys_nodup_assocSet norm hs q.1 q.2 h)

theorem mem_keys_assocSetAll (norm : String → String) (src hs : HeaderList) (x : String)
    (hx : x ∈ (assocSetAll norm hs src).map Prod.fst) :
    x ∈ hs.map Prod.fst ∨ x ∈ src.map (fun p => norm p.1) := by
  induction src generalizing hs with
  | nil => exact Or.inl hx
  | cons q rest ih =>
      rcases ih (assocSet norm hs q.1 q.2) hx with h | h
      · rcases mem_keys_assocSet norm hs q.1 q.2 x h with h' | h'
        · exact Or.inl h'
        · exact Or.inr (by rw [List.map_cons, h']; exact List.mem_cons_self _ _)
      · exact Or.inr (by rw [List.map_cons]; exact List.mem_cons_of_mem _ h)

theorem assocGet_id_mem (hs : HeaderList) (k v : String)
    (h : assocGet id hs k = some v) : (k, v) ∈ hs := by
  unfold assocGet at h
  rcases Option.map_eq_some'.mp h with ⟨p, hfind, hv⟩
  have hpred := List.find?_some hfind
  have hmem := List.mem_of_find?_eq_some hfind
  have hk : p.1 = k := by simpa using hpred
  have : p = (k, v) := by
    cases p
    simp_all
  exact this ▸ hmem

/-! ## Lifecycle lemmas -/

theorem serializeResponseBody_snd (r : HandlerResult) :
    (serializeResponseBody r).2 = r := by
  cases r <;> rfl

theorem onAfterHandle_calls (ctx : Option VerifiedPaymentContext) (r : HandlerResult)
    (sh : HeaderList) (settle : SettleCall → SettleOutcome) :
    (onAfterHandle ctx r sh settle).2
      = match ctx with
        | none => []
        | some pc =>
            if handlerSignalsError r then []
            else [mkSettleCall pc (serializeResponseBody r).1] := by
  cases ctx with
  | none => rfl
  | some pc =>
      by_cases hr : handlerSignalsError r
      · simp [onAfterHandle, hr]
      · cases hout : settle (mkSettleCall pc (serializeResponseBody r).1) <;>
          simp [onAfterHandle, hr, hout]

theorem onBeforeHandle_unprotected (rp : HTTPRequestContext → Bool)
    (verify : HTTPRequestContext → ProcessResult) (st : MiddlewareState) (req : RawRequest)
    (h : rp (mkContext req) = false) :
    onBeforeHandle rp verify st req
      = (.passThrough none, st, { awaitedInit := false, verifyCalls := [] }) := by
  simp [onBeforeHandle, h]

theorem onBeforeHandle_state_protected (rp : HTTPRequestContext → Bool)
    (verify : HTTPRequestContext → ProcessResult) (st : MiddlewareState) (req : RawRequest)
    (h : rp (mkContext req) = true) :
    (onBeforeHandle rp verify st req).2.1
      = { initPromise := none, bazaarPromise := none } := by
  cases hv : verify (mkContext req) <;> simp [onBeforeHandle, h, hv]

theorem onBeforeHandle_awaited (rp : HTTPRequestContext → Bool)
    (verify : HTTPRequestContext → ProcessResult) (st : MiddlewareState) (req : RawRequest) :
    ((onBeforeHandle rp verify st req).2.2).awaitedInit
      = (rp (mkContext req) && st.initPromise.isSome) := by
  by_cases h : rp (mkContext req)
  · cases hv : verify (mkContext req) <;> simp [onBeforeHandle, h, hv]
  · simp [onBeforeHandle, h]

theorem onBeforeHandle_initPromise_none (rp : HTTPRequestContext → Bool)
    (verify : HTTPRequestContext → ProcessResult) (st : MiddlewareState) (req : RawRequest)
    (h : st.initPromise = none) :
    ((onBeforeHandle rp verify st req).2.1).initPromise = none := by
  by_cases hrp : rp (mkContext req)
  · cases hv : verify (mkContext req) <;> simp [onBeforeHandle, hrp, hv]
  · simp [onBeforeHandle, hrp, h]

theorem runRequests_cons (rp : HTTPRequestContext → Bool)
    (verify : HTTPRequestContext → ProcessResult) (st : MiddlewareState)
    (req : RawRequest) (rest : List RawRequest) :
    (runRequests rp verify st (req :: rest)).2
      = (onBeforeHandle rp verify st req).2.2
        :: (runRequests rp verify ((onBeforeHandle rp verify st req).2.1) rest).2 := rfl

theorem runRequests_no_await (rp : HTTPRequestContext → Bool)
    (verify : HTTPRequestContext → ProcessResult) (reqs : List RawRequest)
    (st : MiddlewareState) (h : st.initPromise = none) :
    ∀ e ∈ (runRequests rp verify st reqs).2, e.awaitedInit = false := by
  induction reqs generalizing st with
  | nil => intro e he; cases he
  | cons req rest ih =>
      intro e he
      rw [runRequests_cons] at he
      rcases List.mem_cons.mp he with he | he
      · rw [he, onBeforeHandle_awaited, h]
        simp
      · exact ih ((onBeforeHandle rp verify st req).2.1)
          (onBeforeHandle_initPromise_none rp verify st req h) e he

/-! ## Claim theorems -/

/-- **C1.** When the payment context is populated, the handler's status did
not signal an error, and the settle call produces a failure — an explicit
non-success result or a thrown exception — the final response is exactly a
402 with JSON body `{"error":"Settlement failed","details":<reason>}` and
`content-type: application/json`; the replacement is built from the failure
reason alone, so no part of the handler's response survives. -/
theorem settlement_failure_discards_handler_body
    (pc : VerifiedPaymentContext) (r : HandlerResult) (sh : HeaderList)
    (settle : SettleCall → SettleOutcome) (reason : String)
    (hr : handlerSignalsError r = false)
    (hfail : settleFailReason (settle (mkSettleCall pc (serializeResponseBody r).1))
        = some reason) :
    (onAfterHandle (some pc) r sh settle).1
      = .replaced 402 (settlementFailedJson reason)
          [("content-type", "application/json")] := by
  cases hout : settle (mkSettleCall pc (serializeResponseBody r).1) with
  | ok hdrs =>
      rw [hout] at hfail
      exact absurd hfail (by simp [settleFailReason])
  | fail e =>
      rw [hout] at hfail
      have he : e = reason := by simpa [settleFailReason] using hfail
      subst he
      simp [onAfterHandle, hr, hout]
  | thrown m =>
      rw [hout] at hfail
      have he : thrownMessage m = reason := by simpa [settleFailReason] using hfail
      subst he
      simp [onAfterHandle, hr, hout]

theorem settlement_failure_discards_handler_body_witness :
    (onAfterHandle
        (some { paymentPayload := "p", paymentRequirements := "q",
                declaredExtensions := none,
                context := { path := "/api/weather", method := "GET", paymentHeader := none } })
        (.str "top-secret-weather") []
        (fun _ => .fail "insufficient funds")).1
      = .replaced 402 (settlementFailedJson "insufficient funds")
          [("content-type", "application/json")] :=
  settlement_failure_discards_handler_body _ _ _ _ _ (by decide) (by decide)

/-- **C2.** Settlement is attempted iff the payment context is populated and
neither error-shape check (direct `Response` status, wrapped `code` field)
reports a status of 400 or more; when a check reports an error, settle is
called zero times and the handler's response and `ctx.set.headers` pass
through unchanged. -/
theorem settlement_iff_context_and_status
    (ctx : Option VerifiedPaymentContext) (r : HandlerResult) (sh : HeaderList)
    (settle : SettleCall → SettleOutcome) :
    ((onAfterHandle ctx r sh settle).2 ≠ []
        ↔ ctx.isSome = true ∧ handlerSignalsError r = false)
    ∧ (handlerSignalsError r = true →
        onAfterHandle ctx r sh settle = (.pass r sh, [])) := by
  constructor
  · rw [onAfterHandle_calls]
    cases ctx with
    | none => simp
    | some pc => by_cases hr : handlerSignalsError r <;> simp [hr]
  · intro hr
    cases ctx with
    | none => rfl
    | some pc => simp [onAfterHandle, hr]

theorem settlement_iff_context_and_status_witness :
    onAfterHandle
        (some { paymentPayload := "p", paymentRequirements := "q",
                declaredExtensions := none,
                context := { path := "/w", method := "GET", paymentHeader := none } })
        (.response { status := 404, bodyBytes := [], headers := [], bodyUsed := false })
        [] (fun _ => .ok [])
      = (.pass (.response { status := 404, bodyBytes := [], headers := [], bodyUsed := false }) [], []) :=
  (settlement_iff_context_and_status _ _ _ _).2 (by decide)

/-- **C3.** The Header Selector surfaces a single optional credential: the
`payment-signature` header wins, `x-payment` is the fallback, and an empty
string in either position is treated as absent and is never surfaced as a
credential. -/
theorem header_selector_precedence (hs : HeaderList) :
    (asCredential (selectPaymentHeader hs)
      = match asCredential (getHeader hs "payment-signature") with
        | some c => some c
        | none => asCredential (getHeader hs "x-payment"))
    ∧ asCredential (selectPaymentHeader hs) ≠ some "" := by
  constructor
  · rcases h1 : getHeader hs "payment-signature" with _ | s1
    · simp [selectPaymentHeader, jsOrElse, asCredential, h1]
    · by_cases he : s1 = ""
      · subst he
        simp [selectPaymentHeader, jsOrElse, asCredential, h1]
      · simp [selectPaymentHeader, jsOrElse, asCredential, h1, he]
  · rcases h : selectPaymentHeader hs with _ | s
    · simp [asCredential]
    · by_cases he : s = "" <;> simp [asCredential, he]

theorem header_selector_precedence_witness :
    asCredential (selectPaymentHeader
      [("payment-signature", ""), ("x-payment", "legacy-credential")])
      = some "legacy-credential" :=
  (header_selector_precedence
    [("payment-signature", ""), ("x-payment", "legacy-credential")]).1.trans (by decide)

/-- **C5.** The settlement-serialization step produces: the cloned body
bytes of a `Response` object while handing the original response on
untouched (so it is still deliverable), the raw bytes of a string body, the
`JSON.stringify` bytes of an object body, and a zero-length buffer for an
absent body. -/
theorem settlement_serialization_shapes (wr : WebResponse) (s j : String) (c : Option Int) :
    serializeResponseBody (.response wr) = (wr.bodyBytes, .response wr)
    ∧ serializeResponseBody (.str s) = (s.data, .str s)
    ∧ serializeResponseBody (.obj c j) = (j.data, .obj c j)
    ∧ serializeResponseBody .nullV = ([], .nullV)
    ∧ serializeResponseBody .undefV = ([], .undefV) :=
  ⟨rfl, rfl, rfl, rfl, rfl⟩

/-- **C6.** For a route the classifier reports as not requiring payment,
`onBeforeHandle` passes through immediately with no verify call, no await of
the facilitator init promise and the closure state untouched; and with the
payment context left empty, `onAfterHandle` makes zero settle calls and
passes the handler's response through. -/
theorem unprotected_route_zero_work (rp : HTTPRequestContext → Bool)
    (verify : HTTPRequestContext → ProcessResult) (st : MiddlewareState) (req : RawRequest)
    (r : HandlerResult) (sh : HeaderList) (settle : SettleCall → SettleOutcome)
    (h : rp (mkContext req) = false) :
    onBeforeHandle rp verify st req
      = (.passThrough none, st, { awaitedInit := false, verifyCalls := [] })
    ∧ onAfterHandle none r sh settle = (.pass r sh, []) :=
  ⟨onBeforeHandle_unprotected rp verify st req h, rfl⟩

theorem unprotected_route_zero_work_witness :
    onBeforeHandle (fun c => c.path == "/api/weather") (fun _ => .noPaymentRequired)
        { initPromise := some (), bazaarPromise := none }
        { path := "/health", method := "GET", headers := [] }
      = (.passThrough none, { initPromise := some (), bazaarPromise := none },
         { awaitedInit := false, verifyCalls := [] })
    ∧ onAfterHandle none (.str "ok") [] (fun _ => .ok []) = (.pass (.str "ok") [], []) :=
  unprotected_route_zero_work _ _ _ _ _ _ _ (by decide)

/-- **C7.** For a populated payment context whose handler response does not
signal an error, settle is invoked exactly once, with the verified payload,
requirements and declared extensions, and a transport context carrying the
request context and the serialized response body; in particular for a
`Response` with status in [200,399] the body forwarded is the response's
body bytes. -/
theorem settle_called_exactly_once (pc : VerifiedPaymentContext) (r : HandlerResult)
    (sh : HeaderList) (settle : SettleCall → SettleOutcome)
    (hr : handlerSignalsError r = false) :
    (onAfterHandle (some pc) r sh settle).2
      = [{ payload := pc.paymentPayload, requirements := pc.paymentRequirements,
           extensions := pc.declaredExtensions, transportRequest := pc.context,
           responseBody := (serializeResponseBody r).1 }]
    ∧ ∀ wr : WebResponse, 200 ≤ wr.status → wr.status ≤ 399 →
        (onAfterHandle (some pc) (.response wr) sh settle).2
          = [{ payload := pc.paymentPayload, requirements := pc.paymentRequirements,
               extensions := pc.declaredExtensions, transportRequest := pc.context,
               responseBody := wr.bodyBytes }] := by
  constructor
  · rw [onAfterHandle_calls]
    simp [hr, mkSettleCall]
  · intro wr h1 h2
    rw [onAfterHandle_calls]
    have hwr : handlerSignalsError (.response wr) = false := by
      simp only [handlerSignalsError, decide_eq_false_iff_not]
      omega
    simp [hwr, mkSettleCall, serializeResponseBody, WebResponse.clone, WebResponse.arrayBuffer]

theorem settle_called_exactly_once_witness :
    (onAfterHandle
        (some { paymentPayload := "pay", paymentRequirements := "req",
                declaredExtensions := some "ext",
                context := { path := "/w", method := "GET", paymentHeader := some "sig" } })
        (.str "body") [] (fun _ => .ok [])).2
      = [{ payload := "pay", requirements := "req", extensions := some "ext",
           transportRequest := { path := "/w", method := "GET", paymentHeader := some "sig" },
           responseBody := "body".data }] :=
  (settle_called_exactly_once _ _ _ _ (by decide)).1

/-- **C8.** When settlement succeeds, the final result passes the handler's
response through unchanged (same status and body) with the settlement
headers assigned onto `ctx.set.headers`; on the outgoing response every
settlement header appears (winning a key collision with a handler header),
and keys not touched by the settlement result or the prior set headers keep
the handler's value. -/
theorem settlement_success_merges_headers
    (pc : VerifiedPaymentContext) (r : HandlerResult) (sh hdrs : HeaderList)
    (settle : SettleCall → SettleOutcome)
    (hr : handlerSignalsError r = false)
    (hok : settle (mkSettleCall pc (serializeResponseBody r).1) = .ok hdrs)
    (hsh : (sh.map Prod.fst).Nodup)
    (hhd : (hdrs.map Prod.fst).Nodup) :
    onAfterHandle (some pc) r sh settle
      = (.pass r (recordSetAll sh hdrs), [mkSettleCall pc (serializeResponseBody r).1])
    ∧ (∀ k v, (k, v) ∈ hdrs → recordGet (recordSetAll sh hdrs) k = some v)
    ∧ (∀ hh k v, (k, v) ∈ hdrs →
        recordGet (finalHeaders hh (recordSetAll sh hdrs)) k = some v)
    ∧ (∀ hh k, k ∉ sh.map Prod.fst → k ∉ hdrs.map Prod.fst →
        recordGet (finalHeaders hh (recordSetAll sh hdrs)) k = recordGet hh k) := by
  refine ⟨?_, ?_, ?_, ?_⟩
  · have hpass := serializeResponseBody_snd r
    simp [onAfterHandle, hr, hok, hpass]
  · intro k v hm
    exact assocGet_setAll_mem id hdrs sh k v hhd hm
  · intro hh k v hm
    have h2 : assocGet id (assocSetAll id sh hdrs) k = some v :=
      assocGet_setAll_mem id hdrs sh k v hhd hm
    have hmem : (k, v) ∈ assocSetAll id sh hdrs := assocGet_id_mem _ k v h2
    have hnd2 : ((assocSetAll id sh hdrs).map Prod.fst).Nodup :=
      keys_nodup_assocSetAll id hdrs sh hsh
    exact assocGet_setAll_mem id (assocSetAll id sh hdrs) hh k v hnd2 hmem
  · intro hh k hk1 hk2
    have hnot : k ∉ (assocSetAll id sh hdrs).map Prod.fst := by
      intro hmem
      rcases mem_keys_assocSetAll id hdrs sh k hmem with h' | h'
      · exact hk1 h'
      · exact hk2 h'
    exact assocGet_setAll_not_mem id (assocSetAll id sh hdrs) hh k hnot

theorem settlement_success_merges_headers_witness :
    onAfterHandle
        (some { paymentPayload := "pay", paymentRequirements := "req",
                declaredExtensions := none,
                context := { path := "/w", method := "GET", paymentHeader := none } })
        (.str "body") [] (fun _ => .ok [("payment-response", "r1")])
      = (.pass (.str "body") [("payment-response", "r1")],
         [{ payload := "pay", requirements := "req", extensions := none,
            transportRequest := { path := "/w", method := "GET", paymentHeader := none },
            responseBody := "body".data }]) :=
  (settlement_success_merges_headers
    { paymentPayload := "pay", paymentRequirements := "req", declaredExtensions := none,
      context := { path := "/w", method := "GET", paymentHeader := none } }
    (.str "body") [] [("payment-response", "r1")]
    (fun _ => .ok [("payment-response", "r1")])
    (by decide) (by decide) (by decide) (by decide)).1

/-- **C9.** Across a sequence of requests: only protected requests ever
await the facilitator init promise; at most one request in the whole
sequence awaits it (every later request skips waiting); and whenever a
request awaits, the internal reference comes out cleared (`none`). -/
theorem facilitator_init_await_discipline (rp : HTTPRequestContext → Bool)
    (verify : HTTPRequestContext → ProcessResult) (st0 : MiddlewareState)
    (reqs : List RawRequest) :
    (∀ pair ∈ reqs.zip (runRequests rp verify st0 reqs).2,
        rp (mkContext pair.1) = false → pair.2.awaitedInit = false)
    ∧ ((runRequests rp verify st0 reqs).2.filter (fun e => e.awaitedInit)).length ≤ 1
    ∧ (∀ st req, ((onBeforeHandle rp verify st req).2.2).awaitedInit = true →
        ((onBeforeHandle rp verify st req).2.1).initPromise = none) := by
  refine ⟨?_, ?_, ?_⟩
  · induction reqs generalizing st0 with
    | nil => intro pair hp; cases hp
    | cons req rest ih =>
        intro pair hp hfalse
        rw [runRequests_cons] at hp
        rcases List.mem_cons.mp hp with hp | hp
        · rw [hp]
          rw [hp] at hfalse
          rw [onBeforeHandle_awaited, hfalse]
          simp
        · exact ih ((onBeforeHandle rp verify st0 req).2.1) pair hp hfalse
  · induction reqs generalizing st0 with
    | nil => simp [runRequests]
    | cons req rest ih =>
        rw [runRequests_cons]
        by_cases ha : ((onBeforeHandle rp verify st0 req).2.2).awaitedInit
        · rw [List.filter_cons_of_pos (by simpa using ha)]
          have hrp : rp (mkContext req) = true := by
            rw [onBeforeHandle_awaited] at ha
            exact (Bool.and_eq_true_iff.mp ha).1
          have hst : ((onBeforeHandle rp verify st0 req).2.1).initPromise = none := by
            rw [onBeforeHandle_state_protected rp verify st0 req hrp]
          have hall := runRequests_no_await rp verify rest
            ((onBeforeHandle rp verify st0 req).2.1) hst
          have hnil : ((runRequests rp verify
              ((onBeforeHandle rp verify st0 req).2.1) rest).2.filter
                (fun e => e.awaitedInit)) = [] := by
            rw [List.filter_eq_nil_iff]
            intro e he
            simp [hall e he]
          rw [hnil]
          simp
        · rw [List.filter_cons_of_neg (by simpa using ha)]
          exact ih ((onBeforeHandle rp verify st0 req).2.1)
  · intro st req h
    rw [onBeforeHandle_awaited] at h
    rw [onBeforeHandle_state_protected rp verify st req (Bool.and_eq_true_iff.mp h).1]

theorem facilitator_init_await_discipline_witness :
    ((runRequests (fun _ => true) (fun _ => .noPaymentRequired)
        { initPromise := some (), bazaarPromise := none }
        [{ path := "/a", method := "GET", headers := [] },
         { path := "/b", method := "GET", headers := [] }]).2.filter
          (fun e => e.awaitedInit)).length ≤ 1 :=
  (facilitator_init_await_discipline _ _ _ _).2.1

/-- **C10.** The serialization step is total over the remaining handler
shapes: for `null`, `undefined`, a number and a boolean the serialized
responseBody is the zero-length buffer, and settlement still proceeds with
that empty body (one settle call carrying `responseBody = []`). -/
theorem serialization_total_on_primitives (pc : VerifiedPaymentContext)
    (sh : HeaderList) (settle : SettleCall → SettleOutcome) (n : Int) (b : Bool)
    (r : HandlerResult)
    (h : r = .nullV ∨ r = .undefV ∨ r = .numV n ∨ r = .boolV b) :
    (serializeResponseBody r).1 = []
    ∧ (onAfterHandle (some pc) r sh settle).2
        = [{ payload := pc.paymentPayload, requirements := pc.paymentRequirements,
             extensions := pc.declaredExtensions, transportRequest := pc.context,
             responseBody := [] }] := by
  have hr : handlerSignalsError r = false := by
    rcases h with rfl | rfl | rfl | rfl <;> rfl
  have hs : (serializeResponseBody r).1 = [] := by
    rcases h with rfl | rfl | rfl | rfl <;> rfl
  refine ⟨hs, ?_⟩
  rw [onAfterHandle_calls]
  simp [hr, hs, mkSettleCall]

theorem serialization_total_on_primitives_witness :
    (serializeResponseBody .nullV).1 = []
    ∧ (onAfterHandle
        (some { paymentPayload := "p", paymentRequirements := "q",
                declaredExtensions := none,
                context := { path := "/w", method := "GET", paymentHeader := none } })
        .nullV [] (fun _ => .ok [])).2
      = [{ payload := "p", requirements := "q", extensions := none,
           transportRequest := { path := "/w", method := "GET", paymentHeader := none },
           responseBody := [] }] :=
  serialization_total_on_primitives _ _ _ 0 false .nullV (Or.inl rfl)

/-- **C4 (counterexample).** As literally stated — "every header provided by
the outcome is copied onto the response" — the claim fails: an outcome that
itself provides a `content-type` header has it overridden by the
flag-determined content type on the built response. -/
theorem payment_error_header_copy_counterexample :
    ¬ ∀ resp : CoreErrorResponse, ∀ kv ∈ resp.headers,
        headersGet (buildPaymentErrorResponse resp).headers kv.1 = some kv.2 := by
  intro hclaim
  have h := hclaim
    { status := 402, headers := [("content-type", "text/plain")],
      isHtml := false, body := none }
    ("content-type", "text/plain") (by simp)
  have hval : headersGet (buildPaymentErrorResponse
      { status := 402, headers := [("content-type", "text/plain")],
        isHtml := false, body := none }).headers "content-type"
      = some "application/json" := by decide
  rw [hval] at h
  exact absurd h (by decide)

/-- **C4 (amended).** The built payment-error response carries the outcome's
status; its `content-type` is `text/html; charset=utf-8` when the outcome is
HTML-flagged and `application/json` otherwise (overriding any content-type
the outcome provided); and every outcome header other than `content-type`
is copied onto the response. -/
theorem payment_error_response_built (resp : CoreErrorResponse)
    (hnd : (resp.headers.map (fun p => lowerStr p.1)).Nodup) :
    (buildPaymentErrorResponse resp).status = resp.status
    ∧ headersGet (buildPaymentErrorResponse resp).headers "content-type"
        = some (if resp.isHtml then "text/html; charset=utf-8" else "application/json")
    ∧ (∀ k v, (k, v) ∈ resp.headers → lowerStr k ≠ "content-type" →
        headersGet (buildPaymentErrorResponse resp).headers k = some v) := by
  have hct : lowerStr "content-type" = "content-type" := by decide
  refine ⟨?_, ?_, ?_⟩
  · by_cases hh : resp.isHtml <;> simp [buildPaymentErrorResponse, hh]
  · by_cases hh : resp.isHtml <;>
      simpa [buildPaymentErrorResponse, hh, headersGet, headersSet] using
        assocGet_set_self lowerStr (headersCopyAll [] resp.headers) "content-type" _
  · intro k v hm hk
    have h1 : headersGet (buildPaymentErrorResponse resp).headers k
        = headersGet (headersCopyAll [] resp.headers) k := by
      by_cases hh : resp.isHtml <;>
        simpa [buildPaymentErrorResponse, hh, headersGet, headersSet] using
          assocGet_set_other lowerStr (headersCopyAll [] resp.headers)
            "content-type" _ k (by rw [hct]; exact hk)
    rw [h1]
    exact assocGet_setAll_mem lowerStr resp.headers [] k v hnd hm

theorem payment_error_response_built_witness :
    (buildPaymentErrorResponse
      { status := 402, headers := [("x-payment-required", "abc")],
        isHtml := false, body := none }).status = 402
    ∧ headersGet (buildPaymentErrorResponse
        { status := 402, headers := [("x-payment-required", "abc")],
          isHtml := false, body := none }).headers "content-type"
        = some "application/json"
    ∧ headersGet (buildPaymentErrorResponse
        { status := 402, headers := [("x-payment-required", "abc")],
          isHtml := false, body := none }).headers "x-payment-required"
        = some "abc" := by
  have h := payment_error_response_built
    { status := 402, headers := [("x-payment-required", "abc")],
      isHtml := false, body := none } (by decide)
  exact ⟨h.1, by simpa using h.2.1, h.2.2 "x-payment-required" "abc" (by decide) (by decide)⟩

end X402Elysia
